import Mathlib

/-!
Shallow embedding of `forge/components/action_history/action_history.py`
(the `ActionHistoryComponent` episode-digest compiler) and proofs about it.

The source file under verification defines `_compile_progress`, which renders
a list of episodes into a bounded textual digest, and `get_messages`, which
wraps the digest in a chat message.  Helper code that the source file imports
from elsewhere in the repository (`indent`, `Episode.format`, `ChatMessage`)
is not part of the provided sources and is modelled from the spec where noted.
-/

set_option autoImplicit false

namespace ActionHistory

/-- Modelled from the spec: an `Episode` carries opaque action/result payloads
whose only relevant capability here is the deterministic textual rendering
`format()`; we record that rendering as the field `fmt`.  `summary` is the
optional precomputed short text ("absent until an external compression pass
fills it in"). -/
structure Episode where
  fmt : String
  summary : Option String
  deriving DecidableEq

instance : Inhabited Episode := ⟨⟨"", none⟩⟩

/-- Whitespace test matching Python `str.strip()`'s default character set
(space, tab, newline, carriage return are the ones that can occur here). -/
def isWS (c : Char) : Bool :=
  c = ' ' || c = '\t' || c = '\n' || c = '\r'

/-- Python `str.strip()` on the character list: drop leading and trailing
whitespace. -/
def stripChars (l : List Char) : List Char :=
  ((l.dropWhile isWS).reverse.dropWhile isWS).reverse

/-- Python `str.strip()`. -/
def pyStrip (s : String) : String :=
  ⟨stripChars s.data⟩

/-- Re-indentation of every line after a newline by `k` spaces. -/
def indentChars (k : Nat) : List Char → List Char
  | [] => []
  | c :: rest =>
      if c = '\n' then c :: (List.replicate k ' ' ++ indentChars k rest)
      else c :: indentChars k rest

/-- Modelled from the spec: the repository helper `forge.llm.prompting.utils.indent`
(not among the provided sources): the text "re-indented by a fixed indent for
visual nesting", i.e. every line prefixed with `k` spaces. -/
def indent (content : String) (k : Nat) : String :=
  ⟨List.replicate k ' ' ++ indentChars k content.data⟩

/-- Python `"sep".join(list)`. -/
def joinSep (sep : String) : List String → String
  | [] => ""
  | [s] => s
  | s :: rest => s ++ sep ++ joinSep sep rest

/-- Body of the tiering branch in `_compile_progress`:
`indent(episode.format(), 2).strip()` when `i < 4 or episode.summary is None`,
otherwise `episode.summary`. -/
def stepContent (i : Nat) (e : Episode) : String :=
  if i < 4 || e.summary.isNone then pyStrip (indent e.fmt 2)
  else e.summary.getD ""

/-- The labeled step string `f"* Step {n_episodes - i}: {step_content}"`. -/
def renderStep (n i : Nat) (e : Episode) : String :=
  "* Step " ++ toString (n - i) ++ ": " ++ stepContent i e

/-- The scan loop of `_compile_progress` when no budget is active: every
episode of `l` (already reversed, newest first) is rendered; `i` is the
zero-based recency index. Output is in scan order (newest first); the
source's `steps.insert(0, step)` corresponds to a final `reverse`. -/
def unboundedLoop (n : Nat) : Nat → List Episode → List String
  | _, [] => []
  | i, e :: rest => renderStep n i e :: unboundedLoop n (i + 1) rest

/-- The scan loop of `_compile_progress` when the token budget is active:
`tokens` is the running total; the loop `break`s (returns `[]`) at the first
step whose cost would push the total over `maxT`. Output is in scan order
(newest first). -/
def compileLoop (ct : String → Int) (maxT : Int) (n : Nat) :
    Nat → Int → List Episode → List String
  | _, _, [] => []
  | i, tokens, e :: rest =>
      let step := renderStep n i e
      let stepTokens := ct step
      if tokens + stepTokens > maxT then []
      else step :: compileLoop ct maxT n (i + 1) (tokens + stepTokens) rest

/-- Python truthiness of the `Optional[int]` argument `max_tokens`:
`None` and `0` are falsy. -/
def truthyInt : Option Int → Bool
  | none => false
  | some x => x != 0

/-- `ActionHistoryComponent._compile_progress`.  `raise ValueError(...)` is
modelled as `Except.error` with the source's message; the normal return is
`Except.ok`.  The guard `if max_tokens and not count_tokens` and the loop
condition `if max_tokens and count_tokens` use Python truthiness. -/
def _compile_progress (episode_history : List Episode) (max_tokens : Option Int)
    (count_tokens : Option (String → Int)) : Except String String :=
  if truthyInt max_tokens && count_tokens.isNone then
    Except.error "count_tokens is required if max_tokens is set"
  else
    let n := episode_history.length
    let kept :=
      match count_tokens with
      | some ct =>
          if truthyInt max_tokens then
            compileLoop ct (max_tokens.getD 0) n 0 0 episode_history.reverse
          else
            unboundedLoop n 0 episode_history.reverse
      | none => unboundedLoop n 0 episode_history.reverse
    Except.ok (joinSep "\n\n" kept.reverse)

/-- The full scan-order (newest-first) step list, with no budget. -/
def scanSteps (eps : List Episode) : List String :=
  unboundedLoop eps.length 0 eps.reverse

/-- The steps of the unbounded digest in chronological order (oldest first). -/
def unboundedSteps (eps : List Episode) : List String :=
  (scanSteps eps).reverse

/-- Modelled from the spec: `ChatMessage` (from `forge.llm.providers`, not among
the provided sources) is an opaque message record; only the role tag and the
content string matter here. -/
structure ChatMessage where
  role : String
  content : String
  deriving DecidableEq

/-- `ChatMessage.system(content)`. -/
def ChatMessage.system (content : String) : ChatMessage :=
  ⟨"system", content⟩

/-- `ActionHistoryConfiguration`: `max_tokens: int = 1024` plus the NLP model
name passed through to the compression collaborator. -/
structure ActionHistoryConfiguration where
  max_tokens : Int
  browse_spacy_language_model : String

/-- `ActionHistoryComponent.get_messages`: compiles the digest from
`self.event_history.episodes`, `self.config.max_tokens` and
`self.count_tokens` and, when the digest string is truthy (non-empty), yields
one system message; a raise inside `_compile_progress` propagates. -/
def get_messages (episodes : List Episode) (config : ActionHistoryConfiguration)
    (count_tokens : String → Int) : Except String (List ChatMessage) :=
  match _compile_progress episodes (some config.max_tokens) (some count_tokens) with
  | Except.error e => Except.error e
  | Except.ok progress =>
      Except.ok (if progress = "" then []
        else [ChatMessage.system ("## Progress on your Task so far\n\n" ++ progress)])

/-! ### Concrete inputs used by counterexamples and witnesses -/

/-- A one-character episode with no summary. -/
def epA : Episode := ⟨"a", none⟩

/-- A token counter that counts one token per character. -/
def ctLen : String → Int := fun s => (s.length : Int)

/-- A 20-character `format()` rendering, so a labeled full step
`"* Step N: " ++ c20` is exactly 30 characters. -/
def c20 : String := "aaaaaaaaaaaaaaaaaaaa"

/-- A token counter realizing the spec's concrete scenario: full-format
labeled steps (30 characters here) cost 30 tokens, summary steps cost 5. -/
def ct30 : String → Int := fun s => if s.length < 30 then 5 else 30

/-- Six episodes, the two oldest with 5-character summaries, mirroring the
spec's concrete scenario. -/
def eps6 : List Episode :=
  [⟨c20, some "sssss"⟩, ⟨c20, some "sssss"⟩, ⟨c20, none⟩,
   ⟨c20, none⟩, ⟨c20, none⟩, ⟨c20, none⟩]

/-- The digest the code actually produces in the spec's concrete scenario. -/
def digest456 : String :=
  "* Step 4: " ++ c20 ++ "\n\n* Step 5: " ++ c20 ++ "\n\n* Step 6: " ++ c20

/-- Five episodes, the oldest carrying a summary: its recency index is 4, so
the tiering rule renders it by its summary. -/
def eps5 : List Episode := [⟨"f", some "s"⟩, epA, epA, epA, epA]

/-! ### Helper lemmas about the embedded definitions -/

theorem getD_reverse {α : Type} (l : List α) (d : α) (j : Nat) (h : j < l.length) :
    l.reverse.getD j d = l.getD (l.length - 1 - j) d := by
  have h' : j < l.reverse.length := by simpa using h
  rw [List.getD_eq_getElem _ _ h', List.getD_eq_getElem _ _ (by omega)]
  exact List.getElem_reverse h'

theorem unboundedLoop_length (n : Nat) :
    ∀ (l : List Episode) (i : Nat), (unboundedLoop n i l).length = l.length := by
  intro l
  induction l with
  | nil => intro i; rfl
  | cons e rest ih => intro i; simp [unboundedLoop, ih]

theorem unboundedLoop_getD (n : Nat) :
    ∀ (l : List Episode) (i j : Nat), j < l.length →
      (unboundedLoop n i l).getD j "" = renderStep n (i + j) (l.getD j default) := by
  intro l
  induction l with
  | nil => intro i j h; simp at h
  | cons e rest ih =>
      intro i j h
      cases j with
      | zero => simp [unboundedLoop]
      | succ j' =>
          have h' : j' < rest.length := by simpa using Nat.lt_of_succ_lt_succ (by simpa using h)
          have := ih (i + 1) j' h'
          simpa [unboundedLoop, Nat.add_assoc, Nat.add_comm 1 j'] using this

theorem scanSteps_length (eps : List Episode) :
    (scanSteps eps).length = eps.length := by
  simp [scanSteps, unboundedLoop_length]

theorem unboundedSteps_length (eps : List Episode) :
    (unboundedSteps eps).length = eps.length := by
  simp [unboundedSteps, scanSteps_length]

theorem unboundedSteps_getD (eps : List Episode) (j : Nat) (h : j < eps.length) :
    (unboundedSteps eps).getD j "" =
      renderStep eps.length (eps.length - 1 - j) (eps.getD j default) := by
  have hlen : (scanSteps eps).length = eps.length := scanSteps_length eps
  have h1 : (unboundedSteps eps).getD j "" =
      (scanSteps eps).getD (eps.length - 1 - j) "" := by
    unfold unboundedSteps
    rw [getD_reverse _ _ _ (by omega), hlen]
  rw [h1, scanSteps, unboundedLoop_getD eps.length eps.reverse 0 _ (by simp; omega)]
  rw [getD_reverse _ _ _ (by omega)]
  have h2 : eps.length - 1 - (eps.length - 1 - j) = j := by omega
  rw [h2, Nat.zero_add]

/-- The branch of `_compile_progress` taken when `max_tokens is None`: the
reversed accumulation of the unbounded scan, i.e. the full chronological
digest, regardless of `count_tokens`. -/
theorem compile_progress_none (eps : List Episode) (ctOpt : Option (String → Int)) :
    _compile_progress eps none ctOpt =
      Except.ok (joinSep "\n\n" (unboundedSteps eps)) := by
  cases ctOpt <;> simp [_compile_progress, truthyInt, unboundedSteps, scanSteps]

/-- The branch taken when `max_tokens == 0`: falsy, hence no guard error and
no budget, regardless of `count_tokens`. -/
theorem compile_progress_zero (eps : List Episode) (ctOpt : Option (String → Int)) :
    _compile_progress eps (some 0) ctOpt =
      Except.ok (joinSep "\n\n" (unboundedSteps eps)) := by
  cases ctOpt <;> simp [_compile_progress, truthyInt, unboundedSteps, scanSteps]

/-- The branch taken when `max_tokens` is truthy and `count_tokens` is given:
the budgeted scan loop. -/
theorem compile_progress_budget (eps : List Episode) (m : Int) (ct : String → Int)
    (hm : m ≠ 0) :
    _compile_progress eps (some m) (some ct) =
      Except.ok (joinSep "\n\n" (compileLoop ct m eps.length 0 0 eps.reverse).reverse) := by
  simp [_compile_progress, truthyInt, hm]

/-- The guard branch: truthy `max_tokens` with `count_tokens=None` raises. -/
theorem compile_progress_guard (eps : List Episode) (m : Int) (hm : m ≠ 0) :
    _compile_progress eps (some m) none =
      Except.error "count_tokens is required if max_tokens is set" := by
  simp [_compile_progress, truthyInt, hm]

/-- Specification of the budgeted scan loop: it keeps some initial segment
`take k` of the steps the unbounded scan would produce, every running total
along that segment stays within `maxT`, and if the loop stopped before the
end of the list then the very next step would have pushed the total over. -/
theorem compileLoop_spec (ct : String → Int) (m : Int) (n : Nat) :
    ∀ (l : List Episode) (i : Nat) (t : Int), t ≤ m →
      ∃ k, k ≤ l.length ∧
        compileLoop ct m n i t l = (unboundedLoop n i l).take k ∧
        (∀ j, j ≤ k → t + (((unboundedLoop n i l).take j).map ct).sum ≤ m) ∧
        (k < l.length → m < t + (((unboundedLoop n i l).take (k + 1)).map ct).sum) := by
  intro l
  induction l with
  | nil =>
      intro i t ht
      refine ⟨0, Nat.le_refl 0, rfl, ?_, ?_⟩
      · intro j hj
        have hj0 : j = 0 := Nat.le_zero.mp hj
        subst hj0
        simpa using ht
      · intro h
        exact absurd h (by simp)
  | cons e rest ih =>
      intro i t ht
      by_cases hover : t + ct (renderStep n i e) > m
      · refine ⟨0, Nat.zero_le _, ?_, ?_, ?_⟩
        · simp [compileLoop, hover]
        · intro j hj
          have hj0 : j = 0 := Nat.le_zero.mp hj
          subst hj0
          simpa using ht
        · intro _
          simpa [unboundedLoop] using hover
      · have hle : t + ct (renderStep n i e) ≤ m := le_of_not_lt hover
        obtain ⟨k, hk, heq, hsums, hstop⟩ := ih (i + 1) (t + ct (renderStep n i e)) hle
        refine ⟨k + 1, by simpa using Nat.succ_le_succ hk, ?_, ?_, ?_⟩
        · simp only [compileLoop, unboundedLoop, List.take_succ_cons]
          rw [if_neg hover, heq]
        · intro j hj
          cases j with
          | zero => simpa using ht
          | succ j' =>
              have hj' : j' ≤ k := Nat.succ_le_succ_iff.mp hj
              have hs := hsums j' hj'
              simp only [unboundedLoop, List.take_succ_cons, List.map_cons, List.sum_cons]
              linarith
        · intro hlt
          have hlt' : k < rest.length := by
            simpa using Nat.lt_of_succ_lt_succ (by simpa using hlt)
          have hs := hstop hlt'
          simp only [unboundedLoop, List.take_succ_cons, List.map_cons, List.sum_cons]
          linarith

/-- Every string produced by the unbounded scan loop is a rendered step of
some episode of the scanned list, at its recency index. -/
theorem unboundedLoop_mem (n : Nat) :
    ∀ (l : List Episode) (i : Nat) (s : String), s ∈ unboundedLoop n i l →
      ∃ j, j < l.length ∧ s = renderStep n (i + j) (l.getD j default) := by
  intro l
  induction l with
  | nil => intro i s hs; simp [unboundedLoop] at hs
  | cons e rest ih =>
      intro i s hs
      simp only [unboundedLoop, List.mem_cons] at hs
      rcases hs with h | h
      · exact ⟨0, by simp, by simpa using h⟩
      · obtain ⟨j, hj, hsj⟩ := ih (i + 1) s h
        refine ⟨j + 1, by simpa using Nat.succ_lt_succ hj, ?_⟩
        simpa [Nat.add_assoc, Nat.add_comm 1 j] using hsj

/-- The budgeted loop only ever emits steps the unbounded loop would emit. -/
theorem compileLoop_subset (ct : String → Int) (m : Int) (n : Nat) :
    ∀ (l : List Episode) (i : Nat) (t : Int) (s : String),
      s ∈ compileLoop ct m n i t l → s ∈ unboundedLoop n i l := by
  intro l
  induction l with
  | nil => intro i t s hs; simp [compileLoop] at hs
  | cons e rest ih =>
      intro i t s hs
      simp only [compileLoop] at hs
      by_cases hover : t + ct (renderStep n i e) > m
      · rw [if_pos hover] at hs
        simp at hs
      · rw [if_neg hover] at hs
        simp only [List.mem_cons] at hs
        rcases hs with h | h
        · simp [unboundedLoop, h]
        · exact List.mem_cons_of_mem _ (ih (i + 1) _ s h)

/-- The source's tiering branch, rewritten with the spec's propositional
condition: full rendering when `i < 4` or the summary is absent, the summary
text otherwise. -/
theorem stepContent_eq_spec (i : Nat) (e : Episode) :
    stepContent i e =
      if i < 4 ∨ e.summary = none then pyStrip (indent e.fmt 2)
      else (e.summary).getD "" := by
  cases hs : e.summary <;> by_cases h4 : i < 4 <;> simp [stepContent, hs, h4]

/-- Any successful result of `_compile_progress` is a `"\n\n"`-join of a list
of strings each of which the unbounded scan would emit. -/
theorem compile_progress_ok_kept (eps : List Episode) (mt : Option Int)
    (ctOpt : Option (String → Int)) (digest : String)
    (h : _compile_progress eps mt ctOpt = Except.ok digest) :
    ∃ kept : List String, digest = joinSep "\n\n" kept ∧
      ∀ s ∈ kept, s ∈ scanSteps eps := by
  cases mt with
  | none =>
      rw [compile_progress_none eps ctOpt] at h
      injection h with h'
      exact ⟨unboundedSteps eps, h'.symm, fun s hs => by
        simpa [unboundedSteps] using (List.mem_reverse.mp (by simpa [unboundedSteps] using hs))⟩
  | some m =>
      by_cases hm : m = 0
      · subst hm
        rw [compile_progress_zero eps ctOpt] at h
        injection h with h'
        exact ⟨unboundedSteps eps, h'.symm, fun s hs => by
          simpa [unboundedSteps] using (List.mem_reverse.mp (by simpa [unboundedSteps] using hs))⟩
      · cases ctOpt with
        | none =>
            rw [compile_progress_guard eps m hm] at h
            exact absurd h (by simp)
        | some ct =>
            rw [compile_progress_budget eps m ct hm] at h
            injection h with h'
            refine ⟨(compileLoop ct m eps.length 0 0 eps.reverse).reverse, h'.symm, ?_⟩
            intro s hs
            exact compileLoop_subset ct m eps.length eps.reverse 0 0 s
              (List.mem_reverse.mp hs)

/-! ### Claim theorems -/

/-- Claim C1 (counterexample). Two one-character episodes, `max_tokens = 22`,
`count_tokens` = character count: each labeled step costs 11, both are kept
(running total 22 ≤ 22), but the returned digest inserts a `"\n\n"` separator,
so measured with the same `count_tokens` it costs 24 > 22.  This refutes the
claim that the returned string never exceeds `max_tokens` under the same
counter. -/
theorem C1_counterexample :
    _compile_progress [epA, epA] (some 22) (some ctLen) =
      Except.ok "* Step 1: a\n\n* Step 2: a" ∧
    ctLen "* Step 1: a\n\n* Step 2: a" > 22 :=
  ⟨rfl, by decide⟩

/-- Claim C1 (amended). For every list of episodes, every positive
`max_tokens`, and every pure `count_tokens`, the digest compiler keeps a list
of whole steps whose individual `count_tokens` costs sum to at most
`max_tokens` (the returned string is those steps joined with `"\n\n"`
separators, and only measured including the separators can it exceed the
budget), and the unbounded digest's chronological step list splits as a
dropped oldest-first prefix followed by the kept steps. -/
theorem C1_budget_sum_and_drop (eps : List Episode) (m : Int) (ct : String → Int)
    (hm : 0 < m) :
    ∃ kept dropped : List String,
      _compile_progress eps (some m) (some ct) = Except.ok (joinSep "\n\n" kept) ∧
      (kept.map ct).sum ≤ m ∧
      unboundedSteps eps = dropped ++ kept := by
  obtain ⟨k, hk, heq, hsums, hstop⟩ :=
    compileLoop_spec ct m eps.length eps.reverse 0 0 (le_of_lt hm)
  refine ⟨((scanSteps eps).take k).reverse, ((scanSteps eps).drop k).reverse, ?_, ?_, ?_⟩
  · rw [compile_progress_budget eps m ct (ne_of_gt hm), heq]
    rfl
  · have hs := hsums k (Nat.le_refl k)
    rw [List.map_reverse, List.sum_reverse]
    simpa [scanSteps] using hs
  · conv_lhs => rw [unboundedSteps, ← List.take_append_drop k (scanSteps eps)]
    rw [List.reverse_append]

/-- Claim C1 (witness): the amended theorem applied to one episode with a
budget of 100 character-tokens. -/
theorem C1_budget_sum_and_drop_witness :
    ∃ kept dropped : List String,
      _compile_progress [epA] (some 100) (some ctLen) =
        Except.ok (joinSep "\n\n" kept) ∧
      (kept.map ctLen).sum ≤ 100 ∧
      unboundedSteps [epA] = dropped ++ kept :=
  C1_budget_sum_and_drop [epA] 100 ctLen (by decide)

/-- Claim C2 (counterexample). In the spec's concrete scenario (6 episodes,
`max_tokens = 100`, full steps cost 30, summary steps cost 5) the code keeps
steps 6, 5 and 4 (running totals 30, 60, 90 ≤ 100) and only stops at step 3
(which would reach 120): the digest is steps 4–6, not "only step 6" as the
claim states. -/
theorem C2_counterexample :
    _compile_progress eps6 (some 100) (some ct30) = Except.ok digest456 ∧
    digest456 ≠ "* Step 6: " ++ c20 :=
  ⟨rfl, by decide⟩

/-- Claim C2 (amended). In the concrete scenario of 6 episodes with
`max_tokens = 100`, full steps costing 30 tokens and summary steps 5, the
scan keeps the newest three steps (totals 30, 60, 90) and stops at step 3,
whose cost would push the total to 120: the digest contains exactly steps
4, 5 and 6 in chronological order. -/
theorem C2_digest_steps_4_to_6 :
    _compile_progress eps6 (some 100) (some ct30) =
      Except.ok ("* Step 4: " ++ c20 ++ "\n\n* Step 5: " ++ c20 ++
        "\n\n* Step 6: " ++ c20) :=
  rfl

/-- Claim C3 (confirmed). With an active budget the scan keeps the steps up
to the first one whose cost would push the running total over `max_tokens`
(`take k` of the newest-first scan list — steps are wholly included or wholly
excluded, never truncated), every running total along the kept segment stays
within the budget, the stop is immediate (the `(k+1)`-st step would
overflow), and if even the most recent step exceeds the budget the compiler
returns the empty string as a normal result. -/
theorem C3_hard_cutoff (eps : List Episode) (m : Int) (ct : String → Int)
    (hm : 0 < m) :
    (∃ k, k ≤ (scanSteps eps).length ∧
        _compile_progress eps (some m) (some ct) =
          Except.ok (joinSep "\n\n" ((scanSteps eps).take k).reverse) ∧
        (∀ j, j ≤ k → (((scanSteps eps).take j).map ct).sum ≤ m) ∧
        (k < (scanSteps eps).length →
          m < (((scanSteps eps).take (k + 1)).map ct).sum)) ∧
    (∀ rest e, eps = rest ++ [e] → m < ct (renderStep eps.length 0 e) →
        _compile_progress eps (some m) (some ct) = Except.ok "") := by
  constructor
  · obtain ⟨k, hk, heq, hsums, hstop⟩ :=
      compileLoop_spec ct m eps.length eps.reverse 0 0 (le_of_lt hm)
    refine ⟨k, ?_, ?_, ?_, ?_⟩
    · rw [scanSteps_length]
      simpa using hk
    · rw [compile_progress_budget eps m ct (ne_of_gt hm), heq]
      rfl
    · intro j hj
      have hs := hsums j hj
      simpa [scanSteps] using hs
    · intro hlt
      rw [scanSteps_length] at hlt
      have hs := hstop (by simpa using hlt)
      simpa [scanSteps] using hs
  · intro rest e hsplit hcost
    have hrev : eps.reverse = e :: rest.reverse := by simp [hsplit]
    have hcond : (0 : Int) + ct (renderStep eps.length 0 e) > m := by simpa using hcost
    rw [compile_progress_budget eps m ct (ne_of_gt hm), hrev]
    simp only [compileLoop, zero_add]
    rw [if_pos hcost]
    rfl

/-- Claim C3 (witness): with a single episode whose only step costs 5 against
a budget of 1, the digest is the empty string. -/
theorem C3_hard_cutoff_witness :
    _compile_progress [epA] (some 1) (some fun _ => (5 : Int)) = Except.ok "" :=
  (C3_hard_cutoff [epA] 1 (fun _ => (5 : Int)) (by decide)).2 [] epA rfl (by decide)

/-- Claim C4 (confirmed). With `max_tokens` absent the compiler never fails
and returns all `N` episodes as labeled steps in chronological order: the
step list has length `N`, and the step at chronological position `j`
(0-based) is labeled `Step j+1` and rendered — per the tiering rule at
recency index `N-1-j` — in full format for the 4 most recent episodes or
when the summary is absent, and by the summary otherwise. -/
theorem C4_unbounded_all_steps (eps : List Episode)
    (ctOpt : Option (String → Int)) :
    _compile_progress eps none ctOpt =
      Except.ok (joinSep "\n\n" (unboundedSteps eps)) ∧
    (unboundedSteps eps).length = eps.length ∧
    (∀ j, j < eps.length →
      (unboundedSteps eps).getD j "" =
        "* Step " ++ toString (j + 1) ++ ": " ++
          (if eps.length - 1 - j < 4 ∨ (eps.getD j default).summary = none
           then pyStrip (indent (eps.getD j default).fmt 2)
           else ((eps.getD j default).summary).getD "")) := by
  refine ⟨compile_progress_none eps ctOpt, unboundedSteps_length eps, ?_⟩
  intro j hj
  rw [unboundedSteps_getD eps j hj]
  simp only [renderStep, stepContent_eq_spec]
  have h1 : eps.length - (eps.length - 1 - j) = j + 1 := by omega
  rw [h1]

/-- Claim C4 (witness): the theorem applied to two concrete episodes; the
second conjunct is evaluated at chronological position 0. -/
theorem C4_unbounded_all_steps_witness :
    _compile_progress eps5 none none =
      Except.ok (joinSep "\n\n" (unboundedSteps eps5)) ∧
    (unboundedSteps eps5).getD 0 "" =
      "* Step " ++ toString (0 + 1) ++ ": " ++
        (if eps5.length - 1 - 0 < 4 ∨ (eps5.getD 0 default).summary = none
         then pyStrip (indent (eps5.getD 0 default).fmt 2)
         else ((eps5.getD 0 default).summary).getD "") :=
  ⟨(C4_unbounded_all_steps eps5 none).1,
   (C4_unbounded_all_steps eps5 none).2.2 0 (by decide)⟩

/-- Claim C5 (confirmed). In the scan list, the step at recency index `i`
(0 = most recent) is labeled with step number `n - i` and rendered as the
trimmed, re-indented full `format()` output exactly under the claim's
condition `i < 4 ∨ summary = none`, and as the summary text otherwise. -/
theorem C5_tiering (eps : List Episode) (i : Nat) (h : i < eps.length) :
    (scanSteps eps).getD i "" =
      "* Step " ++ toString (eps.length - i) ++ ": " ++
        (if i < 4 ∨ (eps.reverse.getD i default).summary = none
         then pyStrip (indent (eps.reverse.getD i default).fmt 2)
         else ((eps.reverse.getD i default).summary).getD "") := by
  rw [scanSteps, unboundedLoop_getD eps.length eps.reverse 0 i (by simpa using h)]
  simp only [renderStep, stepContent_eq_spec, Nat.zero_add]

/-- Claim C5 (witness): in `eps5` the episode at recency index 4 has a
summary, and the rendered step is its summary text under step label 1. -/
theorem C5_tiering_witness :
    (scanSteps eps5).getD 4 "" =
      "* Step " ++ toString (eps5.length - 4) ++ ": " ++
        (if 4 < 4 ∨ (eps5.reverse.getD 4 default).summary = none
         then pyStrip (indent (eps5.reverse.getD 4 default).fmt 2)
         else ((eps5.reverse.getD 4 default).summary).getD "") :=
  C5_tiering eps5 4 (by decide)

/-- Claim C6 (confirmed). Every successful digest is the `"\n\n"` (blank
line) join of a list of kept steps, and every kept step is the full labeled
string `"* Step " ++ toString (n - i) ++ ": " ++ content` for the episode at
some recency index `i` — so the oldest episode carries step number 1 and the
newest step number `n`, and each step's text carries the `Step N:` header. -/
theorem C6_labels_and_join (eps : List Episode) (mt : Option Int)
    (ctOpt : Option (String → Int)) (digest : String)
    (h : _compile_progress eps mt ctOpt = Except.ok digest) :
    ∃ kept : List String,
      digest = joinSep "\n\n" kept ∧
      ∀ s ∈ kept, ∃ i, i < eps.length ∧
        s = "* Step " ++ toString (eps.length - i) ++ ": " ++
          stepContent i (eps.reverse.getD i default) := by
  obtain ⟨kept, hdig, hmem⟩ := compile_progress_ok_kept eps mt ctOpt digest h
  refine ⟨kept, hdig, ?_⟩
  intro s hs
  obtain ⟨j, hj, hsj⟩ := unboundedLoop_mem eps.length eps.reverse 0 s (hmem s hs)
  exact ⟨j, by simpa using hj, by simpa [renderStep] using hsj⟩

/-- Claim C6 (witness): the theorem applied to a one-episode history compiled
without a budget. -/
theorem C6_labels_and_join_witness :
    ∃ kept : List String,
      "* Step 1: a" = joinSep "\n\n" kept ∧
      ∀ s ∈ kept, ∃ i, i < ([epA] : List Episode).length ∧
        s = "* Step " ++ toString (([epA] : List Episode).length - i) ++ ": " ++
          stepContent i (([epA] : List Episode).reverse.getD i default) :=
  C6_labels_and_join [epA] none none "* Step 1: a" rfl

/-- Claim C7 (counterexample). `max_tokens` is set (to `0`) and
`count_tokens` is `None`, yet no error is raised: the guard tests Python
truthiness, `0` is falsy, and the call returns the full digest normally.
This refutes the claim that every call with `max_tokens` set and
`count_tokens=None` raises. -/
theorem C7_counterexample :
    _compile_progress [epA] (some 0) none = Except.ok "* Step 1: a" :=
  rfl

/-- Claim C7 (amended). For every call with `max_tokens` set to a truthy
(nonzero) value and `count_tokens=None`, the compiler fails with the
configuration error, and does so independently of the episode list (no
episode is rendered); when both are provided, or `max_tokens` is absent or
zero, no error is raised. -/
theorem C7_guard (eps : List Episode) (m : Int) (ct : String → Int)
    (hm : m ≠ 0) :
    _compile_progress eps (some m) none =
      Except.error "count_tokens is required if max_tokens is set" ∧
    (∀ eps2 : List Episode, _compile_progress eps2 (some m) none =
      _compile_progress eps (some m) none) ∧
    (∃ s, _compile_progress eps (some m) (some ct) = Except.ok s) ∧
    (∀ mt : Option Int, ∃ s, _compile_progress eps mt (some ct) = Except.ok s) ∧
    (∃ s, _compile_progress eps none none = Except.ok s) := by
  refine ⟨compile_progress_guard eps m hm, ?_, ?_, ?_, ?_⟩
  · intro eps2
    rw [compile_progress_guard eps m hm, compile_progress_guard eps2 m hm]
  · exact ⟨_, compile_progress_budget eps m ct hm⟩
  · intro mt
    cases mt with
    | none => exact ⟨_, compile_progress_none eps (some ct)⟩
    | some m' =>
        by_cases hm' : m' = 0
        · subst hm'
          exact ⟨_, compile_progress_zero eps (some ct)⟩
        · exact ⟨_, compile_progress_budget eps m' ct hm'⟩
  · exact ⟨_, compile_progress_none eps none⟩

/-- Claim C7 (witness): the amended theorem at the component's default
budget of 1024. -/
theorem C7_guard_witness :
    _compile_progress [epA] (some 1024) none =
      Except.error "count_tokens is required if max_tokens is set" ∧
    (∀ eps2 : List Episode, _compile_progress eps2 (some 1024) none =
      _compile_progress [epA] (some 1024) none) ∧
    (∃ s, _compile_progress [epA] (some 1024) (some ctLen) = Except.ok s) ∧
    (∀ mt : Option Int, ∃ s, _compile_progress [epA] mt (some ctLen) =
      Except.ok s) ∧
    (∃ s, _compile_progress [epA] none none = Except.ok s) :=
  C7_guard [epA] 1024 ctLen (by decide)

/-- Claim C8 (confirmed). The digest compiler is a pure function of the
episode list, the budget, and the counting function: two calls with equal
inputs return equal results.  Side-effect freedom is inherent to the
embedding: `_compile_progress` consumes its arguments and returns only the
digest string, leaving the episode list untouched. -/
theorem C8_deterministic (eps eps2 : List Episode) (mt mt2 : Option Int)
    (ctOpt ctOpt2 : Option (String → Int))
    (he : eps = eps2) (hm : mt = mt2) (hc : ctOpt = ctOpt2) :
    _compile_progress eps mt ctOpt = _compile_progress eps2 mt2 ctOpt2 := by
  subst he
  subst hm
  subst hc
  rfl

/-- Claim C8 (witness): two identical concrete calls agree. -/
theorem C8_deterministic_witness :
    _compile_progress [epA] (some 5) (some ctLen) =
      _compile_progress [epA] (some 5) (some ctLen) :=
  C8_deterministic [epA] [epA] (some 5) (some 5) (some ctLen) (some ctLen)
    rfl rfl rfl

/-- Claim C9 (confirmed). `max_tokens = 0` with `count_tokens=None` raises no
error and behaves exactly as the unbounded (`max_tokens=None`) case: the
guard tests truthiness, so the full digest is produced, with one step per
episode. -/
theorem C9_zero_budget (eps : List Episode) :
    _compile_progress eps (some 0) none = _compile_progress eps none none ∧
    _compile_progress eps (some 0) none =
      Except.ok (joinSep "\n\n" (unboundedSteps eps)) ∧
    (unboundedSteps eps).length = eps.length := by
  refine ⟨?_, compile_progress_zero eps none, unboundedSteps_length eps⟩
  rw [compile_progress_zero eps none, compile_progress_none eps none]

/-- Claim C10 (confirmed). `get_messages` compiles the digest from the
configured budget and counter (never an error when a counter is supplied),
yields no message when the digest is empty, and otherwise yields exactly one
system message: the fixed header, a blank line, and the digest. -/
theorem C10_get_messages_shape (eps : List Episode)
    (config : ActionHistoryConfiguration) (ct : String → Int) :
    ∃ digest, _compile_progress eps (some config.max_tokens) (some ct) =
        Except.ok digest ∧
      get_messages eps config ct =
        Except.ok (if digest = "" then ([] : List ChatMessage)
          else [ChatMessage.system
            ("## Progress on your Task so far\n\n" ++ digest)]) := by
  obtain ⟨digest, hd⟩ : ∃ d, _compile_progress eps (some config.max_tokens)
      (some ct) = Except.ok d := by
    by_cases h0 : config.max_tokens = 0
    · exact ⟨_, by rw [h0]; exact compile_progress_zero eps (some ct)⟩
    · exact ⟨_, compile_progress_budget eps _ ct h0⟩
  exact ⟨digest, hd, by simp [get_messages, hd]⟩

end ActionHistory
